import Mathlib

/-!
Verification development for gpu-pcie-bench (src/main.cpp), a GPU/host
bandwidth benchmark over OpenCL.

The embedding models the program on a 64-bit platform (the source guards the
1/2/4 GiB entries and size_t width by UINTPTR_MAX == 0xffffffffffffffff);
size_t arithmetic is modelled as Nat reduced mod 2^64 where overflow can
occur, C++ double values are modelled as rationals, and OpenCL calls are
modelled by an environment supplying each call's status code and the
wall-clock time observed for each transfer.
-/

namespace GpuPcieBench

/-- Cardinality of size_t on the modelled 64-bit platform. -/
def SIZE_T_CARD : Nat := 2 ^ 64

/-- Whitespace test of the C locale (isspace), used by std::stoull/std::stoi. -/
def isSpaceC (c : Char) : Bool :=
  c = ' ' || c = '\t' || c = '\n' || c = '\x0b' || c = '\x0c' || c = '\r'

/-- Value of a decimal digit string, most significant digit first. -/
def digitsVal (ds : List Char) : Nat :=
  ds.foldl (fun a c => a * 10 + (c.toNat - 48)) 0

/-- Conversion step of the std::stoull model from an extracted digit run:
none models a thrown std::invalid_argument (no digits) or std::out_of_range
(value ≥ 2^64); a leading minus wraps the value modulo 2^64 as strtoull
does. -/
def stoullCore (ds : List Char) (neg : Bool) : Option Nat :=
  if ds = [] then none
  else if SIZE_T_CARD ≤ digitsVal ds then none
  else some (if neg then (SIZE_T_CARD - digitsVal ds) % SIZE_T_CARD else digitsVal ds)

/-- Model of std::stoull with base 10: skip leading whitespace and an
optional sign, then convert the following digit run with stoullCore. -/
def stoullM (cs : List Char) : Option Nat :=
  let cs1 := cs.dropWhile isSpaceC
  let neg : Bool := cs1.head? = some '-'
  let cs2 : List Char :=
    if cs1.head? = some '-' ∨ cs1.head? = some '+' then cs1.tail else cs1
  stoullCore (cs2.takeWhile Char.isDigit) neg

/-- Model of std::stoi with base 10: as stoullM but signed, with none also
modelling the std::out_of_range thrown when the value is outside int range. -/
def stoiM (cs : List Char) : Option Int :=
  let cs1 := cs.dropWhile isSpaceC
  let neg : Bool := cs1.head? = some '-'
  let cs2 : List Char :=
    if cs1.head? = some '-' ∨ cs1.head? = some '+' then cs1.tail else cs1
  let ds := cs2.takeWhile Char.isDigit
  if ds = [] then none
  else
    let v : Int := if neg then -(digitsVal ds : Int) else (digitsVal ds : Int)
    if v < -(2 ^ 31) ∨ 2 ^ 31 ≤ v then none else some v

/-- Model of the std::getline(ss, item, s) tokenizer used by parse_sizes:
splits at each comma; a trailing comma yields no empty final token because
the next getline immediately fails at end of stream. Second argument is the
reversed accumulator of the token being read. -/
def getlineSplitAux : List Char → List Char → List (List Char)
  | [], [] => []
  | [], acc => [acc.reverse]
  | ',' :: rest, acc => acc.reverse :: getlineSplitAux rest []
  | c :: rest, acc => getlineSplitAux rest (c :: acc)

/-- Comma tokens of a string, as produced by the getline loop in parse_sizes. -/
def getlineSplit (cs : List Char) : List (List Char) :=
  getlineSplitAux cs []

/-- Body of the try block in parse_sizes for one token: detect an optional
K/M/G suffix (case-insensitive) on the last character, convert the remaining
prefix with std::stoull, and multiply in size_t arithmetic (mod 2^64).
none models the catch branch: the token is dropped with a diagnostic. -/
def parseSizeItem (item : List Char) : Option Nat :=
  let multAndNum : Nat × List Char :=
    match item.getLast? with
    | some c =>
      if c = 'K' ∨ c = 'k' then (1024, item.dropLast)
      else if c = 'M' ∨ c = 'm' then (1024 * 1024, item.dropLast)
      else if c = 'G' ∨ c = 'g' then (1024 * 1024 * 1024, item.dropLast)
      else (1, item)
    | none => (1, item)
  match stoullM multAndNum.2 with
  | some v => some (v * multAndNum.1 % SIZE_T_CARD)
  | none => none

/-- Model of parse_sizes: tokenize at commas, parse each token, drop
malformed tokens (the catch branch prints a diagnostic and continues). -/
def parse_sizes (s : String) : List Nat :=
  (getlineSplit s.toList).filterMap parseSizeItem

/-- Transfer direction, as in the source enum. -/
inductive Direction where
  | HostToDevice
  | DeviceToHost
  | Both
deriving DecidableEq, Repr

/-- Output unit, as in the source enum Unit (renamed to avoid the core type). -/
inductive UnitSel where
  | MBps
  | GBps
deriving DecidableEq, Repr

/-- ASCII lowercasing applied by parse_direction / parse_unit via ::tolower. -/
def toLowerL (cs : List Char) : List Char :=
  cs.map Char.toLower

/-- Model of parse_direction; none models the exit(1) branch. -/
def parse_direction (cs : List Char) : Option Direction :=
  let l := toLowerL cs
  if l = "host2dev".toList then some Direction.HostToDevice
  else if l = "dev2host".toList then some Direction.DeviceToHost
  else if l = "both".toList then some Direction.Both
  else none

/-- Model of parse_unit; none models the exit(1) branch. -/
def parse_unit (cs : List Char) : Option UnitSel :=
  let l := toLowerL cs
  if l = "mb".toList then some UnitSel.MBps
  else if l = "gb".toList then some UnitSel.GBps
  else none

/-- The staticSizes list of filter_static_sizes_by_gpu_memory on a 64-bit
platform: 512 KiB, 1 MiB, 10 MiB, 100 MiB, 512 MiB, 1 GiB, 2 GiB, 4 GiB. -/
def staticSizes : List Nat :=
  [512 * 1024, 1 * 1024 * 1024, 10 * 1024 * 1024, 100 * 1024 * 1024,
   512 * 1024 * 1024, 1024 * 1024 * 1024, 2048 * 1024 * 1024, 4096 * 1024 * 1024]

/-- Model of the remove-erase idiom sizes.erase(std::remove(b, e, sz), e):
removes every occurrence of sz. -/
def eraseAllEq (l : List Nat) (sz : Nat) : List Nat :=
  l.filter (fun x => x ≠ sz)

/-- One iteration of the loop in filter_static_sizes_by_gpu_memory, with
threshold T = gpuMemSize / 4: a static size above the threshold is removed
from the working list; one at or below it is appended if absent. -/
def filterStep (T : Nat) (l : List Nat) (sz : Nat) : List Nat :=
  if T < sz then eraseAllEq l sz
  else if sz ∈ l then l else l ++ [sz]

/-- Model of filter_static_sizes_by_gpu_memory: fold the loop over the
static sizes, then std::sort ascending (modelled by insertion sort, which
agrees with any sort on Nat up to the proved sortedness and permutation). -/
def filter_static_sizes_by_gpu_memory (sizes : List Nat) (gpuMemSize : Nat) : List Nat :=
  List.insertionSort (· ≤ ·) (staticSizes.foldl (filterStep (gpuMemSize / 4)) sizes)

/-- The default sizes list initialised at the top of main (64-bit platform). -/
def defaultSizes : List Nat :=
  [512 * 1024, 1 * 1024 * 1024, 10 * 1024 * 1024, 100 * 1024 * 1024,
   512 * 1024 * 1024, 1024 * 1024 * 1024, 2048 * 1024 * 1024, 4096 * 1024 * 1024]

/-- The size catalog handed to the transfer loop: main applies the memory
filter only when --sizes was not given; a user-supplied list is used
verbatim. -/
def finalCatalog (userSpecified : Bool) (userSizes : List Nat) (gpuMemSize : Nat) : List Nat :=
  if userSpecified then userSizes
  else filter_static_sizes_by_gpu_memory defaultSizes gpuMemSize

/-- The size catalog of a run without --sizes. -/
def finalCatalogDefault (gpuMemSize : Nat) : List Nat :=
  filter_static_sizes_by_gpu_memory defaultSizes gpuMemSize

/-- CL_SUCCESS status code. -/
def CL_SUCCESS : Int := 0

/-- What one call of measure produces: the double it returns and whether the
CHECK macro printed an error. The CHECK macro expands to a return 1 statement;
inside measure, whose return type is double, that statement does not abort the
program but returns the value 1.0 to the caller, so the field value is the
elapsed time on success and 1 on a failed transfer. -/
structure MeasureResult where
  value : ℚ
  errPrinted : Bool
deriving DecidableEq, Repr

/-- Model of measure: the enqueued blocking transfer's status and the
wall-clock seconds the timed section would observe are supplied by the
environment; on a non-success status the CHECK macro prints the message and
executes return 1, which in a double-returning function yields 1.0. -/
def measure (status : Int) (elapsed : ℚ) : MeasureResult :=
  if status = CL_SUCCESS then ⟨elapsed, false⟩ else ⟨1, true⟩

/-- Environment standing for the OpenCL runtime during one buffer-size
iteration: per-round status of clEnqueueWriteBuffer / clEnqueueReadBuffer and
the elapsed seconds each timed transfer takes. -/
structure ClEnv where
  writeStatus : Nat → Int
  writeElapsed : Nat → ℚ
  readStatus : Nat → Int
  readElapsed : Nat → ℚ

/-- Whether the round loop takes a host-to-device sample this run. -/
def h2dActive (d : Direction) : Bool :=
  d = Direction.HostToDevice || d = Direction.Both

/-- Whether the round loop takes a device-to-host sample this run. -/
def d2hActive (d : Direction) : Bool :=
  d = Direction.DeviceToHost || d = Direction.Both

/-- Host-to-device results of the round loop for i = 0..rounds-1 (rounds is a
C int; a non-positive value makes the loop body run zero times). -/
def h2dSamples (env : ClEnv) (rounds : Int) (dir : Direction) : List MeasureResult :=
  if h2dActive dir then
    (List.range rounds.toNat).map (fun i => measure (env.writeStatus i) (env.writeElapsed i))
  else []

/-- Device-to-host results of the round loop. -/
def d2hSamples (env : ClEnv) (rounds : Int) (dir : Direction) : List MeasureResult :=
  if d2hActive dir then
    (List.range rounds.toNat).map (fun i => measure (env.readStatus i) (env.readElapsed i))
  else []

/-- The per-direction accumulator sumX2X / minX2X / maxX2X of main. -/
structure Stats where
  sum : ℚ
  min : ℚ
  max : ℚ
deriving DecidableEq, Repr

/-- Initial accumulator values: sum = 0, min = 1e10, max = 0. -/
def initStats : Stats :=
  ⟨0, 10000000000, 0⟩

/-- One accumulation step of the round loop for a sample t. -/
def accum (s : Stats) (t : ℚ) : Stats :=
  ⟨s.sum + t, Min.min s.min t, Max.max s.max t⟩

/-- Accumulator state after folding a sample sequence. -/
def statsOf (ts : List ℚ) : Stats :=
  ts.foldl accum initStats

/-- The convert lambda of main: seconds to bandwidth in the selected unit. -/
def convert (u : UnitSel) (dataSize : Nat) (sec : ℚ) : ℚ :=
  match u with
  | UnitSel.GBps => (dataSize : ℚ) / (sec * (1024 * 1024 * 1024))
  | UnitSel.MBps => (dataSize : ℚ) / (sec * (1024 * 1024))

/-- The three bandwidth figures main prints for one direction: under Avg it
prints convert(sum / rounds), under Min it prints convert(max accumulator)
and under Max it prints convert(min accumulator). -/
structure DirectionReport where
  avgBW : ℚ
  minBW : ℚ
  maxBW : ℚ
deriving DecidableEq, Repr

/-- The report main prints for one direction from the accumulator state. -/
def reportStats (u : UnitSel) (dataSize : Nat) (rounds : Int) (s : Stats) : DirectionReport :=
  ⟨convert u dataSize (s.sum / (rounds : ℚ)), convert u dataSize s.max, convert u dataSize s.min⟩

/-- Everything one buffer-size iteration of main produces once its buffer
allocations and mappings have succeeded: the per-round measure results and
the per-direction reports (none for an inactive direction). -/
structure SizeRunResult where
  h2d : List MeasureResult
  d2h : List MeasureResult
  h2dReport : Option DirectionReport
  d2hReport : Option DirectionReport
deriving DecidableEq, Repr

/-- One buffer-size iteration of main: run the round loop, then print one
report per active direction from the accumulated samples. -/
def runSize (env : ClEnv) (u : UnitSel) (rounds : Int) (dir : Direction) (dataSize : Nat) :
    SizeRunResult :=
  let hs := h2dSamples env rounds dir
  let ds := d2hSamples env rounds dir
  ⟨hs, ds,
   if h2dActive dir then
     some (reportStats u dataSize rounds (statsOf (hs.map MeasureResult.value)))
   else none,
   if d2hActive dir then
     some (reportStats u dataSize rounds (statsOf (ds.map MeasureResult.value)))
   else none⟩

/-- Observable outcome of main after device discovery and the memory filter:
exit code, whether the empty-catalog diagnostic was printed, and whether the
transfer phase (context creation, buffer allocation, round loops) was
entered. The exitCode 0 in the transfer branch models a run whose context
creation, allocations and mappings all succeed; a failing transfer inside
measure does not change it (see the model of measure). -/
structure BenchOutcome where
  exitCode : Nat
  emptyCatalogReported : Bool
  transfersAttempted : Bool
deriving DecidableEq, Repr

/-- The empty-catalog check of main, sitting after the filter and before any
context creation, buffer allocation or transfer. -/
def benchAfterQuery (sizes : List Nat) : BenchOutcome :=
  if sizes.isEmpty then ⟨1, true, false⟩ else ⟨0, false, true⟩

/-- The diagnostic printed for an empty post-filter catalog. -/
def emptyCatalogMsg : String :=
  "No buffer sizes fit GPU memory constraints. Exiting."

/-- The messages the CHECK macro can print for a device/API failure, from
every CHECK site in main and measure. -/
def apiFailureMsgs : List String :=
  ["Failed to get platform count", "Failed to get platforms",
   "Failed to get device count", "Failed to get devices",
   "Failed to get GPU name size", "Failed to get GPU name",
   "Failed to get GPU memory size", "Failed to create context",
   "Failed to create command queue", "Failed to allocate pinned host buffer",
   "Failed to allocate pinned receive buffer", "Failed to map host buffer",
   "Failed to map recv buffer", "Failed to allocate device buffer",
   "Write failed", "Read failed"]

/-- An environment in which every write enqueue fails with
CL_MEM_OBJECT_ALLOCATION_FAILURE (-4) and reads succeed in two seconds. -/
def failingEnv : ClEnv :=
  ⟨fun _ => -4, fun _ => 2, fun _ => 0, fun _ => 2⟩

/-- Mutable state of the argument-parsing loop of main, with its
initialisation (64-bit platform defaults for sizes). -/
structure ArgState where
  rounds : Int := 100
  device : Int := 0
  dir : Direction := Direction.Both
  u : UnitSel := UnitSel.GBps
  sizes : List Nat := defaultSizes
  userSpec : Bool := false
deriving DecidableEq, Repr

/-- Result of the argument loop: an early exit, a fatal parse outcome, or the
configuration the rest of main runs with. uncaughtException models a throw
from std::stoi escaping main, which reaches std::terminate. -/
inductive ArgsOutcome where
  | helpExit
  | versionExit
  | usageError (arg : String)
  | directionExit (arg : String)
  | unitExit (arg : String)
  | uncaughtException
  | proceed (st : ArgState)
deriving DecidableEq, Repr

/-- The for loop over argv in main. A flag needing a value that appears last
fails the i + 1 < argc test and falls through to the unknown-argument branch. -/
def parseArgsLoop : List String → ArgState → ArgsOutcome
  | [], st => ArgsOutcome.proceed st
  | "--help" :: _, _ => ArgsOutcome.helpExit
  | "--version" :: _, _ => ArgsOutcome.versionExit
  | "--rounds" :: v :: rest, st =>
    match stoiM v.toList with
    | some n => parseArgsLoop rest { st with rounds := n }
    | none => ArgsOutcome.uncaughtException
  | "--sizes" :: v :: rest, st =>
    parseArgsLoop rest { st with sizes := parse_sizes v, userSpec := true }
  | "--direction" :: v :: rest, st =>
    match parse_direction v.toList with
    | some d => parseArgsLoop rest { st with dir := d }
    | none => ArgsOutcome.directionExit v
  | "--unit" :: v :: rest, st =>
    match parse_unit v.toList with
    | some u => parseArgsLoop rest { st with u := u }
    | none => ArgsOutcome.unitExit v
  | "--device" :: v :: rest, st =>
    match stoiM v.toList with
    | some n => parseArgsLoop rest { st with device := n }
    | none => ArgsOutcome.uncaughtException
  | arg :: _, _ => ArgsOutcome.usageError arg

/-- Argument parsing of main applied to the argv tail. -/
def parse_args (argv : List String) : ArgsOutcome :=
  parseArgsLoop argv {}

/-- How the process leaves the argument phase. abnormal is the
std::terminate path of an uncaught exception; continues means main proceeds
past argument parsing. -/
inductive ExitBehavior where
  | code (n : Nat)
  | abnormal
  | continues
deriving DecidableEq, Repr

/-- Exit behavior of each argument-phase outcome: help and version exit 0,
the unknown-argument branch returns 1, parse_direction and parse_unit call
exit(1), and a stoi throw terminates abnormally. -/
def argsExit : ArgsOutcome → ExitBehavior
  | ArgsOutcome.helpExit => ExitBehavior.code 0
  | ArgsOutcome.versionExit => ExitBehavior.code 0
  | ArgsOutcome.usageError _ => ExitBehavior.code 1
  | ArgsOutcome.directionExit _ => ExitBehavior.code 1
  | ArgsOutcome.unitExit _ => ExitBehavior.code 1
  | ArgsOutcome.uncaughtException => ExitBehavior.abnormal
  | ArgsOutcome.proceed _ => ExitBehavior.continues

/-- Multiplier named by a suffix character, for stating the parsing claim:
1024 for K/k, 1024 squared for M/m, 1024 cubed for G/g, 1 otherwise. -/
def suffixMultChar (c : Char) : Nat :=
  if c = 'K' ∨ c = 'k' then 1024
  else if c = 'M' ∨ c = 'm' then 1024 * 1024
  else if c = 'G' ∨ c = 'g' then 1024 * 1024 * 1024
  else 1

/-- Largest elapsed-time sample of a nonempty list (0 for an empty one). -/
def maxElapsed : List ℚ → ℚ
  | [] => 0
  | t :: ts => ts.foldl Max.max t

/-- Smallest elapsed-time sample of a nonempty list (0 for an empty one). -/
def minElapsed : List ℚ → ℚ
  | [] => 0
  | t :: ts => ts.foldl Min.min t

/-! ### Characterization of the memory filter -/

/-- One filter step on a working list that splits as processed part plus the
still-unprocessed static suffix holding the current element in front. -/
lemma filterStep_split (T : Nat) (pre rest : List Nat) (s : Nat)
    (h : (pre ++ s :: rest).Nodup) :
    filterStep T (pre.filter (fun x => x ≤ T) ++ s :: rest) s =
      (pre ++ [s]).filter (fun x => x ≤ T) ++ rest := by
  rw [List.nodup_append] at h
  have hspre : s ∉ pre := fun hsp => h.2.2 hsp (List.mem_cons_self s rest)
  have hsrest : s ∉ rest := (List.nodup_cons.mp h.2.1).1
  unfold filterStep
  by_cases hT : T < s
  · rw [if_pos hT]
    unfold eraseAllEq
    rw [List.filter_append]
    have h1 : (pre.filter (fun x => x ≤ T)).filter (fun x => x ≠ s) =
        pre.filter (fun x => x ≤ T) := by
      apply List.filter_eq_self.mpr
      intro x hx
      have hxpre := List.mem_of_mem_filter hx
      simp only [ne_eq, decide_eq_true_eq]
      exact fun hxs => hspre (hxs ▸ hxpre)
    have h2 : (s :: rest).filter (fun x => x ≠ s) = rest := by
      rw [List.filter_cons_of_neg (by simp)]
      apply List.filter_eq_self.mpr
      intro x hx
      simp only [ne_eq, decide_eq_true_eq]
      exact fun hxs => hsrest (hxs ▸ hx)
    rw [h1, h2, List.filter_append]
    have h3 : [s].filter (fun x => x ≤ T) = [] := by
      simp [List.filter, decide_eq_true_eq, Nat.not_le.mpr hT]
    rw [h3, List.append_nil]
  · rw [if_neg hT]
    have hmem : s ∈ pre.filter (fun x => x ≤ T) ++ s :: rest := by
      exact List.mem_append_right _ (List.mem_cons_self s rest)
    rw [if_pos hmem, List.filter_append]
    have h3 : [s].filter (fun x => x ≤ T) = [s] := by
      simp [List.filter, decide_eq_true_eq, Nat.le_of_not_lt hT]
    rw [h3]
    simp

/-- The filter loop, started on a working list equal to the filtered
processed part followed by the unprocessed suffix, ends as the filter of the
whole static list: kept iff at most a quarter of accelerator memory. -/
lemma filter_fold_spec (T : Nat) :
    ∀ (suf pre : List Nat), (pre ++ suf).Nodup →
      suf.foldl (filterStep T) (pre.filter (fun x => x ≤ T) ++ suf) =
        (pre ++ suf).filter (fun x => x ≤ T) := by
  intro suf
  induction suf with
  | nil => intro pre _; simp
  | cons s rest ih =>
    intro pre h
    rw [List.foldl_cons, filterStep_split T pre rest s h]
    have hassoc : pre ++ s :: rest = (pre ++ [s]) ++ rest := by simp
    have h2 : ((pre ++ [s]) ++ rest).Nodup := hassoc ▸ h
    have := ih (pre ++ [s]) h2
    rw [this, ← hassoc]

/-- On the default catalog the filter loop yields exactly the static sizes
not exceeding a quarter of accelerator memory, in their original ascending
order. -/
lemma foldl_filterStep_default (T : Nat) :
    staticSizes.foldl (filterStep T) defaultSizes =
      staticSizes.filter (fun x => x ≤ T) := by
  have h := filter_fold_spec T staticSizes [] (by decide)
  simpa using h

/-- The catalog of a run without --sizes is the sorted filtered static list. -/
lemma finalCatalogDefault_eq (M : Nat) :
    finalCatalogDefault M =
      List.insertionSort (· ≤ ·) (staticSizes.filter (fun x => x ≤ M / 4)) := by
  unfold finalCatalogDefault filter_static_sizes_by_gpu_memory
  rw [foldl_filterStep_default]

/-- Membership in the default catalog is membership in the static set plus
the memory bound. -/
lemma mem_finalCatalogDefault (M x : Nat) :
    x ∈ finalCatalogDefault M ↔ x ∈ staticSizes ∧ x ≤ M / 4 := by
  rw [finalCatalogDefault_eq, List.mem_insertionSort, List.mem_filter]
  simp

/-! ### Claims C5, C10, C3, C7 -/

/-- Claim C5: for every accelerator total memory value M, when sizes are not
user-specified, a size S from the standard set is present in the post-filter
catalog if and only if S ≤ M / 4; and with M = 2147483648 bytes the catalog
keeps 512 KiB through 512 MiB and drops the 1, 2 and 4 GiB entries. -/
theorem standard_size_survives_iff (M S : Nat) (hS : S ∈ staticSizes) :
    (S ∈ finalCatalogDefault M ↔ S ≤ M / 4) ∧
      finalCatalogDefault 2147483648 =
        [524288, 1048576, 10485760, 104857600, 536870912] := by
  constructor
  · rw [mem_finalCatalogDefault]
    exact ⟨fun h => h.2, fun h => ⟨hS, h⟩⟩
  · decide

/-- Witness for C5 at M = 2 GiB and S = 512 KiB. -/
theorem standard_size_survives_iff_witness :
    (524288 ∈ finalCatalogDefault 2147483648 ↔ 524288 ≤ 2147483648 / 4) ∧
      finalCatalogDefault 2147483648 =
        [524288, 1048576, 10485760, 104857600, 536870912] :=
  standard_size_survives_iff 2147483648 524288 (by decide)

/-- Membership in the working list is preserved by the whole filter loop for
any value no step targets. -/
lemma mem_foldl_filterStep (T x : Nat) :
    ∀ (ss l : List Nat), x ∈ l → (∀ s ∈ ss, s ≠ x) →
      x ∈ ss.foldl (filterStep T) l := by
  intro ss
  induction ss with
  | nil => intro l hl _; simpa using hl
  | cons s rest ih =>
    intro l hl hne
    rw [List.foldl_cons]
    apply ih
    · unfold filterStep
      by_cases hT : T < s
      · rw [if_pos hT]
        unfold eraseAllEq
        rw [List.mem_filter]
        refine ⟨hl, ?_⟩
        simp only [ne_eq, decide_eq_true_eq]
        exact fun hxs => hne s (List.mem_cons_self s rest) (hxs ▸ rfl)
      · rw [if_neg hT]
        by_cases hmem : s ∈ l
        · rw [if_pos hmem]; exact hl
        · rw [if_neg hmem]; exact List.mem_append_left _ hl
    · exact fun a ha => hne a (List.mem_cons_of_mem s ha)

/-- Claim C10: the memory filter never removes an entry that is not a member
of the standard size set; every non-standard input size is still present in
the output. -/
theorem filter_preserves_nonstandard (sizes : List Nat) (M x : Nat)
    (hx : x ∈ sizes) (hns : x ∉ staticSizes) :
    x ∈ filter_static_sizes_by_gpu_memory sizes M := by
  unfold filter_static_sizes_by_gpu_memory
  rw [List.mem_insertionSort]
  exact mem_foldl_filterStep (M / 4) x staticSizes sizes hx
    (fun s hs hsx => hns (hsx ▸ hs))

/-- Witness for C10: the non-standard size 7 survives filtering with a
1-byte memory total that removes every standard size. -/
theorem filter_preserves_nonstandard_witness :
    7 ∈ filter_static_sizes_by_gpu_memory [7] 1 :=
  filter_preserves_nonstandard [7] 1 7 (by decide) (by decide)

/-- Claim C3 as stated is false: with user-specified sizes the parsed list
is handed to the transfer loop verbatim, so the catalog of a run with
--sizes 1M,0,1M is nonempty (the run reaches the transfer phase) yet is
neither sorted, nor duplicate-free, nor free of zero entries. -/
theorem catalog_user_not_normalized :
    finalCatalog true (parse_sizes "1M,0,1M") 0 = [1048576, 0, 1048576] ∧
      finalCatalog true (parse_sizes "1M,0,1M") 0 ≠ [] ∧
      ¬(List.Sorted (· ≤ ·) (finalCatalog true (parse_sizes "1M,0,1M") 0) ∧
        (finalCatalog true (parse_sizes "1M,0,1M") 0).Nodup ∧
        ∀ x ∈ finalCatalog true (parse_sizes "1M,0,1M") 0, 0 < x) := by
  refine ⟨by decide, by decide, ?_⟩
  intro h
  have := h.2.2 0 (by rw [show finalCatalog true (parse_sizes "1M,0,1M") 0 =
    [1048576, 0, 1048576] from by decide]; decide)
  exact absurd this (by decide)

/-- Claim C3 amended: only when sizes are not user-specified is the catalog
handed to the transfer loop ordered ascending, deduplicated, and made of
positive byte-counts; a user-specified list is used verbatim. -/
theorem catalog_default_normalized (M : Nat) :
    List.Sorted (· ≤ ·) (finalCatalogDefault M) ∧
      (finalCatalogDefault M).Nodup ∧
      ∀ x ∈ finalCatalogDefault M, 0 < x := by
  rw [finalCatalogDefault_eq]
  refine ⟨List.sorted_insertionSort _ _, ?_, ?_⟩
  · have hperm := List.perm_insertionSort (· ≤ ·)
      (staticSizes.filter (fun x => x ≤ M / 4))
    refine hperm.nodup_iff.mpr ?_
    exact List.Nodup.filter _ (by decide)
  · intro x hx
    rw [List.mem_insertionSort, List.mem_filter] at hx
    have hxs : x ∈ staticSizes := hx.1
    fin_cases hxs <;> decide

/-- Witness for C3 amended at M = 2 GiB, extracting positivity of the first
catalog entry. -/
theorem catalog_default_normalized_witness :
    0 < 524288 ∧ List.Sorted (· ≤ ·) (finalCatalogDefault 2147483648) :=
  ⟨(catalog_default_normalized 2147483648).2.2 524288 (by decide),
   (catalog_default_normalized 2147483648).1⟩

/-- Claim C7: whenever the post-filter size catalog is empty, main exits
with code 1 before entering the transfer phase (no context, buffer or
transfer work), reporting a message distinct from every CHECK device/API
failure message. -/
theorem empty_catalog_terminal (userSpecified : Bool) (userSizes : List Nat)
    (M : Nat) (h : finalCatalog userSpecified userSizes M = []) :
    benchAfterQuery (finalCatalog userSpecified userSizes M) =
        { exitCode := 1, emptyCatalogReported := true, transfersAttempted := false } ∧
      emptyCatalogMsg ∉ apiFailureMsgs := by
  refine ⟨?_, by decide⟩
  rw [h]
  decide

/-- Witness for C7: a 1 MiB accelerator memory without --sizes leaves no
sizes (every standard size exceeds 256 KiB), and the run stops before any
transfer. -/
theorem empty_catalog_terminal_witness :
    benchAfterQuery (finalCatalog false [] 1048576) =
        { exitCode := 1, emptyCatalogReported := true, transfersAttempted := false } ∧
      emptyCatalogMsg ∉ apiFailureMsgs :=
  empty_catalog_terminal false [] 1048576 (by decide)

/-! ### Accumulator and report lemmas -/

/-- The sum field of the accumulator after folding a sample sequence. -/
lemma foldl_accum_sum (ts : List ℚ) :
    ∀ s : Stats, (ts.foldl accum s).sum = s.sum + ts.sum := by
  induction ts with
  | nil => intro s; simp
  | cons t rest ih =>
    intro s
    rw [List.foldl_cons, ih]
    simp [accum]
    ring

/-- The min field of the accumulator after folding a sample sequence. -/
lemma foldl_accum_min (ts : List ℚ) :
    ∀ s : Stats, (ts.foldl accum s).min = ts.foldl Min.min s.min := by
  induction ts with
  | nil => intro s; rfl
  | cons t rest ih => intro s; rw [List.foldl_cons, ih]; rfl

/-- The max field of the accumulator after folding a sample sequence. -/
lemma foldl_accum_max (ts : List ℚ) :
    ∀ s : Stats, (ts.foldl accum s).max = ts.foldl Max.max s.max := by
  induction ts with
  | nil => intro s; rfl
  | cons t rest ih => intro s; rw [List.foldl_cons, ih]; rfl

/-- A min fold started at a meet splits off its left argument. -/
lemma foldl_min_split (l : List ℚ) :
    ∀ a b : ℚ, l.foldl Min.min (Min.min a b) = Min.min a (l.foldl Min.min b) := by
  induction l with
  | nil => intro a b; rfl
  | cons c rest ih =>
    intro a b
    rw [List.foldl_cons, List.foldl_cons, min_assoc, ih]

/-- A max fold started at a join splits off its left argument. -/
lemma foldl_max_split (l : List ℚ) :
    ∀ a b : ℚ, l.foldl Max.max (Max.max a b) = Max.max a (l.foldl Max.max b) := by
  induction l with
  | nil => intro a b; rfl
  | cons c rest ih =>
    intro a b
    rw [List.foldl_cons, List.foldl_cons, max_assoc, ih]

/-- A min fold never exceeds its starting value. -/
lemma foldl_min_le_init (l : List ℚ) : ∀ b : ℚ, l.foldl Min.min b ≤ b := by
  induction l with
  | nil => intro b; simp
  | cons c rest ih =>
    intro b
    rw [List.foldl_cons]
    exact le_trans (ih (Min.min b c)) (min_le_left b c)

/-- A min fold is a lower bound of the folded list. -/
lemma foldl_min_le_mem (l : List ℚ) :
    ∀ (b x : ℚ), x ∈ l → l.foldl Min.min b ≤ x := by
  induction l with
  | nil => intro b x hx; exact absurd hx (List.not_mem_nil x)
  | cons c rest ih =>
    intro b x hx
    rw [List.foldl_cons]
    rcases List.mem_cons.mp hx with hxc | hxr
    · subst hxc
      exact le_trans (foldl_min_le_init rest (Min.min b x)) (min_le_right b x)
    · exact ih (Min.min b c) x hxr

/-- A max fold is at least its starting value. -/
lemma init_le_foldl_max (l : List ℚ) : ∀ b : ℚ, b ≤ l.foldl Max.max b := by
  induction l with
  | nil => intro b; simp
  | cons c rest ih =>
    intro b
    rw [List.foldl_cons]
    exact le_trans (le_max_left b c) (ih (Max.max b c))

/-- A max fold is an upper bound of the folded list. -/
lemma mem_le_foldl_max (l : List ℚ) :
    ∀ (b x : ℚ), x ∈ l → x ≤ l.foldl Max.max b := by
  induction l with
  | nil => intro b x hx; exact absurd hx (List.not_mem_nil x)
  | cons c rest ih =>
    intro b x hx
    rw [List.foldl_cons]
    rcases List.mem_cons.mp hx with hxc | hxr
    · subst hxc
      exact le_trans (le_max_right b x) (init_le_foldl_max rest (Max.max b x))
    · exact ih (Max.max b c) x hxr

/-- Min field of the accumulated stats on a nonempty sample list: the true
minimum capped above by the 1e10 sentinel. -/
lemma statsOf_min (t : ℚ) (rest : List ℚ) :
    (statsOf (t :: rest)).min = Min.min 10000000000 (minElapsed (t :: rest)) := by
  unfold statsOf
  rw [foldl_accum_min]
  show (t :: rest).foldl Min.min (10000000000 : ℚ) = _
  rw [List.foldl_cons, foldl_min_split]
  rfl

/-- Max field of the accumulated stats on a nonempty sample list: the true
maximum floored below by the 0 sentinel. -/
lemma statsOf_max (t : ℚ) (rest : List ℚ) :
    (statsOf (t :: rest)).max = Max.max 0 (maxElapsed (t :: rest)) := by
  unfold statsOf
  rw [foldl_accum_max]
  show (t :: rest).foldl Max.max (0 : ℚ) = _
  rw [List.foldl_cons, foldl_max_split]
  rfl

/-- Sum field of the accumulated stats is the sample sum. -/
lemma statsOf_sum (ts : List ℚ) : (statsOf ts).sum = ts.sum := by
  unfold statsOf
  rw [foldl_accum_sum]
  simp [initStats]

/-- The smallest sample of a nonempty list bounds every sample below. -/
lemma minElapsed_le_mem (t : ℚ) (rest : List ℚ) :
    ∀ x ∈ t :: rest, minElapsed (t :: rest) ≤ x := by
  intro x hx
  rcases List.mem_cons.mp hx with hxt | hxr
  · subst hxt; exact foldl_min_le_init rest x
  · exact foldl_min_le_mem rest t x hxr

/-- The largest sample of a nonempty list bounds every sample above. -/
lemma mem_le_maxElapsed (t : ℚ) (rest : List ℚ) :
    ∀ x ∈ t :: rest, x ≤ maxElapsed (t :: rest) := by
  intro x hx
  rcases List.mem_cons.mp hx with hxt | hxr
  · subst hxt; exact init_le_foldl_max rest x
  · exact mem_le_foldl_max rest t x hxr

/-- Bandwidth conversion is antitone in the elapsed time on positives. -/
lemma convert_anti (u : UnitSel) (dataSize : Nat) {a b : ℚ}
    (ha : 0 < a) (hab : a ≤ b) :
    convert u dataSize b ≤ convert u dataSize a := by
  have hnum : (0 : ℚ) ≤ (dataSize : ℚ) := Nat.cast_nonneg dataSize
  cases u with
  | GBps =>
    have hc : (0 : ℚ) < 1024 * 1024 * 1024 := by norm_num
    exact div_le_div_of_nonneg_left hnum (mul_pos ha hc)
      (mul_le_mul_of_nonneg_right hab (le_of_lt hc))
  | MBps =>
    have hc : (0 : ℚ) < 1024 * 1024 := by norm_num
    exact div_le_div_of_nonneg_left hnum (mul_pos ha hc)
      (mul_le_mul_of_nonneg_right hab (le_of_lt hc))

/-! ### Claims C4 and C6 -/

/-- Claim C4: for at least one sample with every elapsed time positive and
below the 1e10 sentinel, the figure printed under Min is the bandwidth of
the largest elapsed-time sample and the figure printed under Max is the
bandwidth of the smallest elapsed-time sample. -/
theorem report_pairs_extremes (u : UnitSel) (dataSize : Nat) (rounds : Int)
    (ts : List ℚ) (hne : ts ≠ [])
    (hb : ∀ x ∈ ts, 0 < x ∧ x ≤ 10000000000) :
    (reportStats u dataSize rounds (statsOf ts)).minBW =
        convert u dataSize (maxElapsed ts) ∧
      (reportStats u dataSize rounds (statsOf ts)).maxBW =
        convert u dataSize (minElapsed ts) := by
  match ts, hne with
  | t :: rest, _ =>
    have hmin : (statsOf (t :: rest)).min = minElapsed (t :: rest) := by
      rw [statsOf_min]
      apply min_eq_right
      exact le_trans (foldl_min_le_init rest t)
        (hb t (List.mem_cons_self t rest)).2
    have hmax : (statsOf (t :: rest)).max = maxElapsed (t :: rest) := by
      rw [statsOf_max]
      apply max_eq_right
      exact le_trans (le_of_lt (hb t (List.mem_cons_self t rest)).1)
        (init_le_foldl_max rest t)
    exact ⟨by rw [show (reportStats u dataSize rounds (statsOf (t :: rest))).minBW =
        convert u dataSize (statsOf (t :: rest)).max from rfl, hmax],
      by rw [show (reportStats u dataSize rounds (statsOf (t :: rest))).maxBW =
        convert u dataSize (statsOf (t :: rest)).min from rfl, hmin]⟩

/-- Witness for C4 on the sample list 2, 1, 3. -/
theorem report_pairs_extremes_witness :
    (reportStats UnitSel.GBps 1048576 3 (statsOf [2, 1, 3])).minBW =
        convert UnitSel.GBps 1048576 (maxElapsed [2, 1, 3]) ∧
      (reportStats UnitSel.GBps 1048576 3 (statsOf [2, 1, 3])).maxBW =
        convert UnitSel.GBps 1048576 (minElapsed [2, 1, 3]) :=
  report_pairs_extremes UnitSel.GBps 1048576 3 [2, 1, 3]
    (by decide) (by decide)

/-- A min fold of positives from a positive start stays positive. -/
lemma pos_foldl_min (l : List ℚ) :
    ∀ b : ℚ, 0 < b → (∀ x ∈ l, 0 < x) → 0 < l.foldl Min.min b := by
  induction l with
  | nil => intro b hb _; simpa using hb
  | cons c rest ih =>
    intro b hb hl
    rw [List.foldl_cons]
    exact ih (Min.min b c) (lt_min hb (hl c (List.mem_cons_self c rest)))
      (fun x hx => hl x (List.mem_cons_of_mem c hx))

/-- Claim C6: for a DirectionStats accumulated from at least one positive
elapsed-time sample, the reported bandwidths satisfy min ≤ avg ≤ max, the
average deriving from sum divided by the count and the extremes from the
duration extremes. -/
theorem report_min_le_avg_le_max (u : UnitSel) (dataSize : Nat)
    (ts : List ℚ) (hne : ts ≠ []) (hpos : ∀ x ∈ ts, 0 < x) :
    (reportStats u dataSize (ts.length : Int) (statsOf ts)).minBW ≤
        (reportStats u dataSize (ts.length : Int) (statsOf ts)).avgBW ∧
      (reportStats u dataSize (ts.length : Int) (statsOf ts)).avgBW ≤
        (reportStats u dataSize (ts.length : Int) (statsOf ts)).maxBW := by
  match ts, hne with
  | t :: rest, _ =>
    have hlen : (0 : ℚ) < ((t :: rest).length : ℚ) := by
      exact_mod_cast Nat.succ_pos rest.length
    have havg : (reportStats u dataSize ((t :: rest).length : Int)
        (statsOf (t :: rest))).avgBW =
        convert u dataSize ((t :: rest).sum / ((t :: rest).length : ℚ)) := by
      show convert u dataSize ((statsOf (t :: rest)).sum / (((((t :: rest).length : ℕ) : ℤ)) : ℚ)) = _
      rw [statsOf_sum]
      norm_cast
    have hminpos : 0 < minElapsed (t :: rest) := by
      show 0 < rest.foldl Min.min t
      exact pos_foldl_min rest t (hpos t (List.mem_cons_self t rest))
        (fun x hx => hpos x (List.mem_cons_of_mem t hx))
    have hmnpos : 0 < (statsOf (t :: rest)).min := by
      rw [statsOf_min]
      exact lt_min (by norm_num) hminpos
    have hmn_le : ∀ x ∈ t :: rest, (statsOf (t :: rest)).min ≤ x := by
      intro x hx
      rw [statsOf_min]
      exact le_trans (min_le_right _ _) (minElapsed_le_mem t rest x hx)
    have hle_mx : ∀ x ∈ t :: rest, x ≤ (statsOf (t :: rest)).max := by
      intro x hx
      rw [statsOf_max]
      exact le_trans (mem_le_maxElapsed t rest x hx) (le_max_right _ _)
    have hmn_avg : (statsOf (t :: rest)).min ≤ (t :: rest).sum / ((t :: rest).length : ℚ) := by
      rw [le_div_iff₀ hlen, mul_comm]
      have := List.card_nsmul_le_sum (t :: rest) ((statsOf (t :: rest)).min) hmn_le
      rwa [nsmul_eq_mul] at this
    have havg_mx : (t :: rest).sum / ((t :: rest).length : ℚ) ≤ (statsOf (t :: rest)).max := by
      rw [div_le_iff₀ hlen, mul_comm]
      have := List.sum_le_card_nsmul (t :: rest) ((statsOf (t :: rest)).max) hle_mx
      rwa [nsmul_eq_mul] at this
    have havgpos : 0 < (t :: rest).sum / ((t :: rest).length : ℚ) :=
      lt_of_lt_of_le hmnpos hmn_avg
    constructor
    · rw [havg]
      show convert u dataSize (statsOf (t :: rest)).max ≤ _
      exact convert_anti u dataSize havgpos havg_mx
    · rw [havg]
      show _ ≤ convert u dataSize (statsOf (t :: rest)).min
      exact convert_anti u dataSize hmnpos hmn_avg

/-- Witness for C6 on the sample list 2, 1, 3. -/
theorem report_min_le_avg_le_max_witness :
    (reportStats UnitSel.GBps 1048576 (([2, 1, 3] : List ℚ).length : Int)
        (statsOf [2, 1, 3])).minBW ≤
      (reportStats UnitSel.GBps 1048576 (([2, 1, 3] : List ℚ).length : Int)
        (statsOf [2, 1, 3])).avgBW :=
  (report_min_le_avg_le_max UnitSel.GBps 1048576 [2, 1, 3]
    (by decide) (by decide)).1

/-! ### Claims C8 and C1 -/

/-- Claim C8: with round_count rounds configured, the round loop yields
exactly round_count samples for each active direction and none for an
inactive one. -/
theorem round_loop_sample_counts (env : ClEnv) (rounds : Int) (dir : Direction)
    (u : UnitSel) (dataSize : Nat) (h : 0 ≤ rounds) :
    (((runSize env u rounds dir dataSize).h2d.length : Int) =
        if h2dActive dir then rounds else 0) ∧
      (((runSize env u rounds dir dataSize).d2h.length : Int) =
        if d2hActive dir then rounds else 0) := by
  constructor
  · show ((h2dSamples env rounds dir).length : Int) = _
    unfold h2dSamples
    by_cases hd : h2dActive dir
    · simp [hd, Int.toNat_of_nonneg h]
    · simp [hd]
  · show ((d2hSamples env rounds dir).length : Int) = _
    unfold d2hSamples
    by_cases hd : d2hActive dir
    · simp [hd, Int.toNat_of_nonneg h]
    · simp [hd]

/-- An environment in which every enqueue succeeds and every transfer takes
two seconds. -/
def steadyEnv : ClEnv :=
  ⟨fun _ => 0, fun _ => 2, fun _ => 0, fun _ => 2⟩

/-- Witness for C8: direction host2dev with 3 rounds yields exactly 3
host-to-device samples and 0 device-to-host samples. -/
theorem round_loop_sample_counts_witness :
    (((runSize steadyEnv UnitSel.GBps 3 Direction.HostToDevice 1048576).h2d.length : Int) =
        if h2dActive Direction.HostToDevice then 3 else 0) ∧
      (((runSize steadyEnv UnitSel.GBps 3 Direction.HostToDevice 1048576).d2h.length : Int) =
        if d2hActive Direction.HostToDevice then 3 else 0) :=
  round_loop_sample_counts steadyEnv 3 Direction.HostToDevice UnitSel.GBps 1048576
    (by decide)

/-- Claim C1 concerns a code bug: when the blocking transfer enqueued inside
measure fails, the CHECK macro executes return 1 inside a double-returning
function, so instead of aborting the run the call yields the sample value
1.0. Concretely, with one round in direction host2dev and
clEnqueueWriteBuffer failing with status -4, the error is printed but the
loop completes, the 1.0 second sample is aggregated, a statistics report for
the in-flight buffer size is still emitted, and the run goes on to exit 0 —
contradicting the specified fatal abort with exit code 1. -/
theorem failed_transfer_not_fatal :
    measure (-4) 2 = { value := 1, errPrinted := true } ∧
      (runSize failingEnv UnitSel.GBps 1 Direction.HostToDevice 1048576).h2d =
        [{ value := 1, errPrinted := true }] ∧
      ((runSize failingEnv UnitSel.GBps 1 Direction.HostToDevice 1048576).h2dReport).isSome =
        true ∧
      (benchAfterQuery [1048576]).exitCode = 0 := by
  refine ⟨by decide, ?_, ?_, by decide⟩
  · show h2dSamples failingEnv 1 Direction.HostToDevice = _
    decide
  · show (if h2dActive Direction.HostToDevice then _ else none).isSome = true
    decide

/-! ### Claim C9 -/

/-- Claim C9 as stated is false: the invocation with --rounds abc contains a
parse error (std::stoi finds no digits), yet the process does not exit with
code 1 after a diagnostic — the uncaught std::invalid_argument reaches
std::terminate and the process dies abnormally. -/
theorem cli_parse_error_counterexample :
    stoiM "abc".toList = none ∧
      parse_args ["--rounds", "abc"] = ArgsOutcome.uncaughtException ∧
      argsExit (parse_args ["--rounds", "abc"]) = ExitBehavior.abnormal ∧
      argsExit (parse_args ["--rounds", "abc"]) ≠ ExitBehavior.code 1 := by
  refine ⟨by decide, by decide, by decide, by decide⟩

/-- Claim C9 amended: in the argument phase, an unknown argument and an
invalid --direction or --unit value terminate with exit code 1 after a
diagnostic, and exit code 0 arises only from --help or --version; but a
non-numeric (or out-of-int-range) value for --rounds or --device raises an
uncaught exception from std::stoi and the process terminates abnormally via
std::terminate instead of exiting with code 1. -/
theorem cli_exit_codes (argv : List String) :
    ((∃ a, parse_args argv = ArgsOutcome.usageError a) ∨
        (∃ a, parse_args argv = ArgsOutcome.directionExit a) ∨
        (∃ a, parse_args argv = ArgsOutcome.unitExit a) →
      argsExit (parse_args argv) = ExitBehavior.code 1) ∧
      (argsExit (parse_args argv) = ExitBehavior.code 0 →
        parse_args argv = ArgsOutcome.helpExit ∨
          parse_args argv = ArgsOutcome.versionExit) ∧
      (parse_args argv = ArgsOutcome.uncaughtException →
        argsExit (parse_args argv) = ExitBehavior.abnormal) := by
  refine ⟨?_, ?_, ?_⟩
  · rintro (⟨a, ha⟩ | ⟨a, ha⟩ | ⟨a, ha⟩) <;> rw [ha] <;> rfl
  · intro h0
    cases hh : parse_args argv <;> rw [hh] at h0 <;>
      simp [argsExit] at h0 <;> simp
  · intro hu
    rw [hu]
    rfl

/-- Witness for C9 amended: an unknown argument exits with code 1. -/
theorem cli_exit_codes_witness :
    argsExit (parse_args ["--bogus"]) = ExitBehavior.code 1 :=
  (cli_exit_codes ["--bogus"]).1 (Or.inl ⟨"--bogus", by decide⟩)

/-! ### Claim C2 -/

/-- A character cannot be a digit and equal to a non-digit character. -/
lemma isDigit_ne {c d : Char} (h : c.isDigit = true) (hd : d.isDigit = false) :
    c ≠ d := by
  intro he
  rw [he, hd] at h
  exact Bool.false_ne_true h

/-- Digits are not C whitespace. -/
lemma isSpaceC_of_digit {c : Char} (h : c.isDigit = true) : isSpaceC c = false := by
  have h1 : c ≠ ' ' := isDigit_ne h (by decide)
  have h2 : c ≠ '\t' := isDigit_ne h (by decide)
  have h3 : c ≠ '\n' := isDigit_ne h (by decide)
  have h4 : c ≠ '\x0b' := isDigit_ne h (by decide)
  have h5 : c ≠ '\x0c' := isDigit_ne h (by decide)
  have h6 : c ≠ '\r' := isDigit_ne h (by decide)
  simp [isSpaceC, h1, h2, h3, h4, h5, h6]

/-- The conversion step maps a nonempty digit run below 2^64 without a
minus sign to its value. -/
lemma stoullCore_pos (ds : List Char) (hne : ds ≠ [])
    (hv : digitsVal ds < SIZE_T_CARD) :
    stoullCore ds false = some (digitsVal ds) := by
  unfold stoullCore
  rw [if_neg hne, if_neg (not_le.mpr hv)]
  rfl

/-- The stoull model maps a pure digit string below 2^64 to its value. -/
lemma stoullM_digits (d : Char) (rest : List Char)
    (hd : ∀ c ∈ d :: rest, c.isDigit = true)
    (hv : digitsVal (d :: rest) < SIZE_T_CARD) :
    stoullM (d :: rest) = some (digitsVal (d :: rest)) := by
  have hd0 := hd d (List.mem_cons_self d rest)
  have hdrop : (d :: rest).dropWhile isSpaceC = d :: rest := by
    rw [List.dropWhile_cons, isSpaceC_of_digit hd0]
    simp
  have htake : (d :: rest).takeWhile Char.isDigit = d :: rest :=
    List.takeWhile_eq_self_iff.mpr hd
  have hm : d ≠ '-' := isDigit_ne hd0 (by decide)
  have hp : d ≠ '+' := isDigit_ne hd0 (by decide)
  unfold stoullM
  simp only [hdrop, List.head?_cons, Option.some.injEq]
  rw [if_neg (by rintro (h | h); exact hm h; exact hp h)]
  rw [htake]
  have hnegf : (decide (d = '-')) = false := by
    simp [hm]
  simp only [hnegf]
  exact stoullCore_pos (d :: rest) (List.cons_ne_nil d rest) hv

/-- Claim C2 as stated is false at a token whose product overflows size_t:
the token 18446744073709551615G parses, but to the wrapped product modulo
2^64 rather than to N times 1024 cubed. -/
theorem size_token_overflow_counterexample :
    parse_sizes "18446744073709551615G" = [18446744072635809792] ∧
      (18446744072635809792 : Nat) ≠ 18446744073709551615 * (1024 * 1024 * 1024) := by
  exact ⟨by decide, by decide⟩

/-- Claim C2 amended: a token of decimal digits with value N and an optional
case-insensitive K/M/G suffix parses to N times 1024, 1024 squared or 1024
cubed respectively — reduced modulo 2^64 by size_t arithmetic, hence equal to
the plain product whenever it fits in 64 bits — while malformed tokens such
as abc or the empty string are dropped with a diagnostic and the rest of the
batch still parses. -/
theorem size_token_parsing (d : Char) (rest : List Char)
    (hd : ∀ c ∈ d :: rest, c.isDigit = true)
    (hv : digitsVal (d :: rest) < SIZE_T_CARD) :
    (∀ c ∈ ['K', 'k', 'M', 'm', 'G', 'g'],
        parseSizeItem ((d :: rest) ++ [c]) =
          some (digitsVal (d :: rest) * suffixMultChar c % SIZE_T_CARD)) ∧
      parseSizeItem (d :: rest) = some (digitsVal (d :: rest)) ∧
      parse_sizes "abc" = [] ∧ parse_sizes "" = [] ∧
      parse_sizes "1K,abc,2M" = [1024, 2097152] := by
  refine ⟨?_, ?_, by decide, by decide, by decide⟩
  · intro c hc
    unfold parseSizeItem
    rw [List.getLast?_concat, List.dropLast_concat]
    fin_cases hc <;>
      simp [stoullM_digits d rest hd hv, suffixMultChar]
  · have hne : d :: rest ≠ [] := List.cons_ne_nil d rest
    have hlast : (d :: rest).getLast? = some ((d :: rest).getLast hne) :=
      List.getLast?_eq_getLast (d :: rest) hne
    have hldig := hd _ (List.getLast_mem hne)
    have h1 : (d :: rest).getLast hne ≠ 'K' := isDigit_ne hldig (by decide)
    have h2 : (d :: rest).getLast hne ≠ 'k' := isDigit_ne hldig (by decide)
    have h3 : (d :: rest).getLast hne ≠ 'M' := isDigit_ne hldig (by decide)
    have h4 : (d :: rest).getLast hne ≠ 'm' := isDigit_ne hldig (by decide)
    have h5 : (d :: rest).getLast hne ≠ 'G' := isDigit_ne hldig (by decide)
    have h6 : (d :: rest).getLast hne ≠ 'g' := isDigit_ne hldig (by decide)
    unfold parseSizeItem
    rw [hlast]
    simp [h1, h2, h3, h4, h5, h6, stoullM_digits d rest hd hv,
      Nat.mod_eq_of_lt hv]

/-- Witness for C2 amended: the token 51K parses to 52224. -/
theorem size_token_parsing_witness :
    parseSizeItem (('5' :: ['1']) ++ ['K']) =
      some (digitsVal ('5' :: ['1']) * suffixMultChar 'K' % SIZE_T_CARD) :=
  (size_token_parsing '5' ['1'] (by decide) (by decide)).1 'K' (by decide)

end GpuPcieBench
